import Mathlib

/-!
Verification of the regex-generator `regexp.py` (GFormsRegExpParser).

The Python source is shallowly embedded: strings become `List Char`,
the fallible compiler returns `Except RegexError`, and the mutually
recursive scanner/driver pair is realised as one structurally recursive
function `build_go` over an explicit fuel argument (proved sufficient at
`s.length + 1`), together with a standalone `make_regex_segment` that
mirrors the source's segment function line by line and is proved to be
the step function of the driver loop.
-/

namespace Regexp

/-- The opening brace character `U+007B`. -/
def lbrace : Char := Char.ofNat 123

/-- The closing brace character `U+007D`. -/
def rbrace : Char := Char.ofNat 125

/-- Python `str.isspace` restricted to the ASCII whitespace characters
(space, tab, newline, vertical tab, form feed, carriage return); the
source relies on it only through these. -/
def pyIsSpace (c : Char) : Bool :=
  c.toNat == 32 || (9 ≤ c.toNat && c.toNat ≤ 13)

/-- Python `str.isalpha` restricted to Basic Latin and Latin-1 letters:
`a`-`z`, `A`-`Z`, and `U+00C0`-`U+00FF` minus the multiplication and
division signs. -/
def pyIsAlpha (c : Char) : Bool :=
  (97 ≤ c.toNat && c.toNat ≤ 122) || (65 ≤ c.toNat && c.toNat ≤ 90) ||
    (192 ≤ c.toNat && c.toNat ≤ 255 && !(c.toNat == 215) && !(c.toNat == 247))

/-- Python `str.lower` on one character, over the modelled
ASCII/Latin-1 range (other characters are fixed). -/
def pyToLower (c : Char) : Char :=
  if 65 ≤ c.toNat && c.toNat ≤ 90 then Char.ofNat (c.toNat + 32)
  else if 192 ≤ c.toNat && c.toNat ≤ 222 && !(c.toNat == 215) then Char.ofNat (c.toNat + 32)
  else c

/-- Python `str.upper` on one character, over the modelled
ASCII/Latin-1 range (other characters are fixed). -/
def pyToUpper (c : Char) : Char :=
  if 97 ≤ c.toNat && c.toNat ≤ 122 then Char.ofNat (c.toNat - 32)
  else if 224 ≤ c.toNat && c.toNat ≤ 254 && !(c.toNat == 247) then Char.ofNat (c.toNat - 32)
  else c

/-- Code point of the unaccented base letter obtained by NFD
decomposition followed by dropping combining marks, for the Latin-1
letters; code points without a canonical decomposition map to
themselves. -/
def accentBase (n : Nat) : Nat :=
  if 192 ≤ n && n ≤ 197 then 65
  else if n == 199 then 67
  else if 200 ≤ n && n ≤ 203 then 69
  else if 204 ≤ n && n ≤ 207 then 73
  else if n == 209 then 78
  else if 210 ≤ n && n ≤ 214 then 79
  else if 217 ≤ n && n ≤ 220 then 85
  else if n == 221 then 89
  else if 224 ≤ n && n ≤ 229 then 97
  else if n == 231 then 99
  else if 232 ≤ n && n ≤ 235 then 101
  else if 236 ≤ n && n ≤ 239 then 105
  else if n == 241 then 110
  else if 242 ≤ n && n ≤ 246 then 111
  else if 249 ≤ n && n ≤ 252 then 117
  else if n == 253 then 121
  else if n == 255 then 121
  else n

/-- `strip_accents` of the source: NFD-decompose and drop combining
marks.  Over the modelled range every character decomposes to a single
base character, so the result is a one-element list. -/
def strip_accents (c : Char) : List Char :=
  [Char.ofNat (accentBase c.toNat)]

/-- The characters escaped by Python `re.escape`
(`()[]\x7b\x7d?*+-|^$\\.&~# \t\n\r\v\f`). -/
def reSpecialChars : List Char :=
  ['(', ')', '[', ']', lbrace, rbrace, '?', '*', '+', '-', '|', '^', '$',
   '\\', '.', '&', '~', '#', ' ', '\t', '\n', '\r', Char.ofNat 11, Char.ofNat 12]

/-- `re.escape` on a single character. -/
def reEscape (c : Char) : String :=
  if reSpecialChars.contains c then String.mk ['\\', c] else String.mk [c]

/-- The `add_c` helper of the source: append the lowercase and then the
uppercase form of `c` to the accumulated class, skipping forms already
present. -/
def addCaseForms (acc : List Char) (c : Char) : List Char :=
  let acc1 := if acc.contains (pyToLower c) then acc else acc ++ [pyToLower c]
  if acc1.contains (pyToUpper c) then acc1 else acc1 ++ [pyToUpper c]

/-- The ordered de-duplicated content of the bracket class emitted for a
letter run starting with `ch` (source lines 93-105): base forms first
when the letter decomposes to a different single unaccented letter, then
the original letter's forms. -/
def letterClass (ch : Char) : List Char :=
  let withBase :=
    match strip_accents ch with
    | [b] => if pyIsAlpha b && !(pyToLower b == pyToLower ch) then addCaseForms [] b else []
    | _ => []
  addCaseForms withBase ch

/-- Python slice `s[a:b]`. -/
def pySlice (s : List Char) (a b : Nat) : List Char :=
  (s.take b).drop a

/-- Python `str.strip`: drop whitespace from both ends. -/
def pyStrip (l : List Char) : List Char :=
  ((l.dropWhile pyIsSpace).reverse.dropWhile pyIsSpace).reverse

/-- Length of the run of characters satisfying `p` starting at index `j`
of `s`, bounded by `e`: the extent of the source's
`while j < end and p(s[j]): j += 1` loops. -/
def countWhileUpto (p : Char → Bool) (s : List Char) (j e : Nat) : Nat :=
  (((s.take e).drop j).takeWhile p).length

/-- Depth-scanning loop of `find_matching_paren`: `l` is the remaining
suffix of the string, `i` the absolute index of its head, `depth` the
current nesting depth. -/
def fmpAux : List Char → Nat → Int → Option Nat
  | [], _, _ => none
  | c :: rest, i, depth =>
    if c = '(' then fmpAux rest (i + 1) (depth + 1)
    else if c = ')' then
      if depth - 1 = 0 then some i else fmpAux rest (i + 1) (depth - 1)
    else fmpAux rest (i + 1) depth

/-- `find_matching_paren(s, start)` (source lines 30-40): scan forward
from `start`, incrementing the depth on `(` and decrementing on `)`,
returning the first index where the depth returns to zero; `none` models
the raised `ValueError`. -/
def find_matching_paren (s : List Char) (start : Nat) : Option Nat :=
  fmpAux (s.drop start) start 0

/-- The three `ValueError`s the source can raise. -/
inductive RegexError where
  | unmatchedParen
  | unmatchedBrace
  | invalidPlaceholder
deriving DecidableEq, Repr

/-- The whole compilation engine (`make_regex_segment` + the driver loop
of `build_regex`, source lines 42-130) as one structurally recursive
function on an explicit fuel argument.  Each branch of the segment
dispatch is inlined into the driver loop; the recursive `build_regex`
calls on sub-strings (group interiors, placeholder sides) and the
loop continuation both run on the predecessor fuel.  `none` means the
fuel ran out (shown never to happen from `s.length + 1`) or an
out-of-range index was demanded (never reached by the driver). -/
def build_go : Nat → List Char → Nat → Option (Except RegexError String)
  | 0, _, _ => none
  | fuel + 1, s, i =>
    if i < s.length then
      match s.get? i with
      | none => none
      | some ch =>
        if pyIsSpace ch then
          let j := i + 1 + countWhileUpto pyIsSpace s (i + 1) s.length
          match build_go fuel s j with
          | none => none
          | some (Except.error er) => some (Except.error er)
          | some (Except.ok rest) => some (Except.ok ("\\s+" ++ rest))
        else if ch == '(' then
          match find_matching_paren s i with
          | none => some (Except.error RegexError.unmatchedParen)
          | some j =>
            match build_go fuel (pySlice s (i + 1) j) 0 with
            | none => none
            | some (Except.error er) => some (Except.error er)
            | some (Except.ok inner) =>
              match build_go fuel s (j + 1) with
              | none => none
              | some (Except.error er) => some (Except.error er)
              | some (Except.ok rest) => some (Except.ok ("(?:" ++ inner ++ ")?" ++ rest))
        else if ch == lbrace then
          let j := i + 1 + countWhileUpto (fun c => !(c == rbrace)) s (i + 1) s.length
          if j ≥ s.length then some (Except.error RegexError.unmatchedBrace)
          else
            match s.get? j with
            | none => some (Except.error RegexError.unmatchedBrace)
            | some cj =>
              if cj == rbrace then
                let content := pySlice s (i + 1) j
                match List.findIdx? (fun c => c == '/') content with
                | none => some (Except.error RegexError.invalidPlaceholder)
                | some sep =>
                  match build_go fuel (pyStrip (content.take sep)) 0 with
                  | none => none
                  | some (Except.error er) => some (Except.error er)
                  | some (Except.ok lr) =>
                    match build_go fuel (pyStrip (content.drop (sep + 1))) 0 with
                    | none => none
                    | some (Except.error er) => some (Except.error er)
                    | some (Except.ok rr) =>
                      match build_go fuel s (j + 1) with
                      | none => none
                      | some (Except.error er) => some (Except.error er)
                      | some (Except.ok rest) =>
                        some (Except.ok ("(?:" ++ lr ++ ")|(?:" ++ rr ++ ")" ++ rest))
              else some (Except.error RegexError.unmatchedBrace)
        else if pyIsAlpha ch then
          let j := i + 1 +
            countWhileUpto (fun c => pyIsAlpha c && (pyToLower c == pyToLower ch)) s (i + 1) s.length
          let count := j - i
          let cls := "[" ++ String.mk (letterClass ch) ++ "]"
          let part := if count > 1 then cls ++ "\x7b" ++ toString count ++ "\x7d" else cls
          match build_go fuel s j with
          | none => none
          | some (Except.error er) => some (Except.error er)
          | some (Except.ok rest) => some (Except.ok (part ++ rest))
        else
          let j := i + 1 +
            countWhileUpto (fun c => !pyIsSpace c && !(c == '(') && !(c == ')') && (c == ch)) s
              (i + 1) s.length
          let count := j - i
          let part := if count > 1 then reEscape ch ++ "\x7b" ++ toString count ++ "\x7d"
            else reEscape ch
          match build_go fuel s j with
          | none => none
          | some (Except.error er) => some (Except.error er)
          | some (Except.ok rest) => some (Except.ok (part ++ rest))
    else some (Except.ok "")

/-- `build_regex(s)` (source lines 122-130).  Fuel `s.length + 1` is
sufficient (`build_go_total` below), so the default is never taken. -/
def build_regex (s : List Char) : Except RegexError String :=
  (build_go (s.length + 1) s 0).getD (Except.ok "")

/-- `make_regex_segment(s, i, end)` (source lines 42-120), mirroring the
source branch by branch; the recursive `build_regex` calls are the
function above.  `none` models the precondition violation `i ≥ len(s)`
(an `IndexError` in Python), which the driver never commits. -/
def make_regex_segment (s : List Char) (i e : Nat) : Option (Except RegexError (String × Nat)) :=
  match s.get? i with
  | none => none
  | some ch =>
    if pyIsSpace ch then
      some (Except.ok ("\\s+", i + 1 + countWhileUpto pyIsSpace s (i + 1) e))
    else if ch == '(' then
      match find_matching_paren s i with
      | none => some (Except.error RegexError.unmatchedParen)
      | some j =>
        match build_regex (pySlice s (i + 1) j) with
        | Except.error er => some (Except.error er)
        | Except.ok inner => some (Except.ok ("(?:" ++ inner ++ ")?", j + 1))
    else if ch == lbrace then
      let j := i + 1 + countWhileUpto (fun c => !(c == rbrace)) s (i + 1) e
      if j ≥ e then some (Except.error RegexError.unmatchedBrace)
      else
        match s.get? j with
        | none => some (Except.error RegexError.unmatchedBrace)
        | some cj =>
          if cj == rbrace then
            let content := pySlice s (i + 1) j
            match List.findIdx? (fun c => c == '/') content with
            | none => some (Except.error RegexError.invalidPlaceholder)
            | some sep =>
              match build_regex (pyStrip (content.take sep)) with
              | Except.error er => some (Except.error er)
              | Except.ok lr =>
                match build_regex (pyStrip (content.drop (sep + 1))) with
                | Except.error er => some (Except.error er)
                | Except.ok rr =>
                  some (Except.ok ("(?:" ++ lr ++ ")|(?:" ++ rr ++ ")", j + 1))
          else some (Except.error RegexError.unmatchedBrace)
    else if pyIsAlpha ch then
      let j := i + 1 +
        countWhileUpto (fun c => pyIsAlpha c && (pyToLower c == pyToLower ch)) s (i + 1) e
      let count := j - i
      let cls := "[" ++ String.mk (letterClass ch) ++ "]"
      let part := if count > 1 then cls ++ "\x7b" ++ toString count ++ "\x7d" else cls
      some (Except.ok (part, j))
    else
      let j := i + 1 +
        countWhileUpto (fun c => !pyIsSpace c && !(c == '(') && !(c == ')') && (c == ch)) s
          (i + 1) e
      let count := j - i
      let part := if count > 1 then reEscape ch ++ "\x7b" ++ toString count ++ "\x7d"
        else reEscape ch
      some (Except.ok (part, j))

/-- `make_regex(text)` (source lines 132-134). -/
def make_regex (t : String) : Except RegexError String :=
  build_regex t.data

/-- The combiner at the heart of `main` (source lines 170-177): compile
`text1`, then, when a second text is present, compile it too and join
the two patterns with alternation; the first error aborts everything. -/
def generate (t1 : String) (t2 : Option String) : Except RegexError String :=
  match make_regex t1 with
  | Except.error er => Except.error er
  | Except.ok r1 =>
    match t2 with
    | none => Except.ok r1
    | some t =>
      match make_regex t with
      | Except.error er => Except.error er
      | Except.ok r2 => Except.ok ("(?:" ++ r1 ++ ")|(?:" ++ r2 ++ ")")

/-- An unaccented ASCII letter (`a`-`z` or `A`-`Z`), the character class
of the plain-letter claims. -/
def isAsciiLetter (c : Char) : Bool :=
  (97 ≤ c.toNat && c.toNat ≤ 122) || (65 ≤ c.toNat && c.toNat ≤ 90)

/-- Concatenation of a list of fragments, as the driver's
`"".join(parts)`. -/
def strConcat : List String → String
  | [] => ""
  | a :: l => a ++ strConcat l

/-- The bracket class the engine emits for one unaccented letter. -/
def asciiBracket (c : Char) : String :=
  "[" ++ String.mk [pyToLower c, pyToUpper c] ++ "]"

/-! ## Bounds of the scanning helpers -/

theorem takeWhile_length_le {α : Type} (p : α → Bool) (l : List α) :
    (l.takeWhile p).length ≤ l.length :=
  (List.takeWhile_sublist p).length_le

theorem dropWhile_length_le {α : Type} (p : α → Bool) (l : List α) :
    (l.dropWhile p).length ≤ l.length :=
  (List.dropWhile_sublist p).length_le

theorem pyStrip_length_le (l : List Char) : (pyStrip l).length ≤ l.length := by
  unfold pyStrip
  calc ((l.dropWhile pyIsSpace).reverse.dropWhile pyIsSpace).reverse.length
      = ((l.dropWhile pyIsSpace).reverse.dropWhile pyIsSpace).length := List.length_reverse _
    _ ≤ (l.dropWhile pyIsSpace).reverse.length := dropWhile_length_le _ _
    _ = (l.dropWhile pyIsSpace).length := List.length_reverse _
    _ ≤ l.length := dropWhile_length_le _ _

theorem pySlice_length (s : List Char) (a b : Nat) (hb : b ≤ s.length) :
    (pySlice s a b).length = b - a := by
  unfold pySlice
  simp [List.length_drop, List.length_take, Nat.min_eq_left hb]

theorem countWhileUpto_le (p : Char → Bool) (s : List Char) (j e : Nat)
    (he : e ≤ s.length) : countWhileUpto p s j e ≤ e - j := by
  unfold countWhileUpto
  calc (((s.take e).drop j).takeWhile p).length
      ≤ ((s.take e).drop j).length := takeWhile_length_le _ _
    _ = e - j := by simp [List.length_drop, List.length_take, Nat.min_eq_left he]

theorem fmpAux_bounds : ∀ (l : List Char) (k : Nat) (d : Int) (j : Nat),
    fmpAux l k d = some j → k ≤ j ∧ j < k + l.length := by
  intro l
  induction l with
  | nil => intro k d j h; simp [fmpAux] at h
  | cons c rest ih =>
    intro k d j h
    have hlc : (c :: rest).length = rest.length + 1 := rfl
    unfold fmpAux at h
    by_cases hc : c = '('
    · simp only [hc, if_pos rfl] at h
      have := ih (k + 1) (d + 1) j h
      omega
    · rw [if_neg hc] at h
      by_cases hc2 : c = ')'
      · rw [if_pos hc2] at h
        by_cases hd : d - 1 = 0
        · rw [if_pos hd] at h
          simp at h
          simp [h]
        · rw [if_neg hd] at h
          have := ih (k + 1) (d - 1) j h
          omega
      · rw [if_neg hc2] at h
        have := ih (k + 1) d j h
        omega

theorem fmpAux_zero_gt : ∀ (l : List Char) (k : Nat) (j : Nat),
    fmpAux l k 0 = some j → k + 1 ≤ j := by
  intro l k j h
  cases l with
  | nil => simp [fmpAux] at h
  | cons c rest =>
    unfold fmpAux at h
    by_cases hc : c = '('
    · rw [if_pos hc] at h
      exact (fmpAux_bounds rest (k + 1) _ j h).1
    · rw [if_neg hc] at h
      by_cases hc2 : c = ')'
      · rw [if_pos hc2] at h
        have : ¬((0 : Int) - 1 = 0) := by decide
        rw [if_neg this] at h
        exact (fmpAux_bounds rest (k + 1) _ j h).1
      · rw [if_neg hc2] at h
        exact (fmpAux_bounds rest (k + 1) _ j h).1

theorem find_matching_paren_bounds (s : List Char) (i j : Nat)
    (h : find_matching_paren s i = some j) : i < j ∧ j < s.length := by
  unfold find_matching_paren at h
  have h1 := fmpAux_zero_gt (s.drop i) i j h
  have h2 := fmpAux_bounds (s.drop i) i 0 j h
  have hlen : (s.drop i).length = s.length - i := List.length_drop i s
  have hne : s.drop i ≠ [] := by
    intro hnil
    rw [hnil] at h
    simp [fmpAux] at h
  have : i < s.length := by
    by_contra hge
    exact hne (List.drop_eq_nil_of_le (Nat.le_of_not_lt hge))
  omega

/-! ## Sufficiency of the fuel -/

theorem build_go_total : ∀ (f : Nat) (s : List Char) (i : Nat),
    s.length - i < f → (build_go f s i).isSome = true := by
  intro f
  induction f with
  | zero => intro s i h; omega
  | succ f ih =>
    intro s i h
    by_cases hi : i < s.length
    · have hch : s.get? i = some (s.get ⟨i, hi⟩) := List.get?_eq_get hi
      rw [build_go, if_pos hi, hch]
      set ch := s.get ⟨i, hi⟩ with hchdef
      dsimp only
      by_cases hsp : pyIsSpace ch = true
      · rw [if_pos hsp]
        have hc := countWhileUpto_le pyIsSpace s (i + 1) s.length le_rfl
        obtain ⟨r, hr⟩ := Option.isSome_iff_exists.mp
          (ih s (i + 1 + countWhileUpto pyIsSpace s (i + 1) s.length) (by omega))
        rw [hr]
        cases r <;> simp
      · rw [if_neg hsp]
        by_cases hpar : (ch == '(') = true
        · rw [if_pos hpar]
          cases hfind : find_matching_paren s i with
          | none => simp
          | some j =>
            dsimp only
            have hb := find_matching_paren_bounds s i j hfind
            have hsl : (pySlice s (i + 1) j).length = j - (i + 1) :=
              pySlice_length s (i + 1) j (by omega)
            obtain ⟨r1, hr1⟩ := Option.isSome_iff_exists.mp
              (ih (pySlice s (i + 1) j) 0 (by omega))
            rw [hr1]
            cases r1 with
            | error er => simp
            | ok inner =>
              obtain ⟨r2, hr2⟩ := Option.isSome_iff_exists.mp (ih s (j + 1) (by omega))
              rw [hr2]
              cases r2 <;> simp
        · rw [if_neg hpar]
          by_cases hbr : (ch == lbrace) = true
          · rw [if_pos hbr]
            have hc := countWhileUpto_le (fun c => !(c == rbrace)) s (i + 1) s.length le_rfl
            set j := i + 1 + countWhileUpto (fun c => !(c == rbrace)) s (i + 1) s.length
              with hjdef
            by_cases hje : j ≥ s.length
            · rw [if_pos hje]; simp
            · rw [if_neg hje]
              have hjlt : j < s.length := Nat.lt_of_not_le hje
              have hcj : s.get? j = some (s.get ⟨j, hjlt⟩) := List.get?_eq_get hjlt
              rw [hcj]
              dsimp only
              by_cases hcjr : (s.get ⟨j, hjlt⟩ == rbrace) = true
              · rw [if_pos hcjr]
                have hcl : (pySlice s (i + 1) j).length = j - (i + 1) :=
                  pySlice_length s (i + 1) j (by omega)
                cases hfi : List.findIdx? (fun c => c == '/') (pySlice s (i + 1) j) with
                | none => simp
                | some sep =>
                  dsimp only
                  have hlb : (pyStrip ((pySlice s (i + 1) j).take sep)).length ≤ j - (i + 1) := by
                    calc (pyStrip ((pySlice s (i + 1) j).take sep)).length
                        ≤ ((pySlice s (i + 1) j).take sep).length := pyStrip_length_le _
                      _ ≤ (pySlice s (i + 1) j).length := by
                          simp [List.length_take]
                      _ = j - (i + 1) := hcl
                  have hrb : (pyStrip ((pySlice s (i + 1) j).drop (sep + 1))).length
                      ≤ j - (i + 1) := by
                    calc (pyStrip ((pySlice s (i + 1) j).drop (sep + 1))).length
                        ≤ ((pySlice s (i + 1) j).drop (sep + 1)).length := pyStrip_length_le _
                      _ ≤ (pySlice s (i + 1) j).length := by
                          simp [List.length_drop]
                      _ = j - (i + 1) := hcl
                  obtain ⟨r1, hr1⟩ := Option.isSome_iff_exists.mp
                    (ih (pyStrip ((pySlice s (i + 1) j).take sep)) 0 (by omega))
                  rw [hr1]
                  cases r1 with
                  | error er => simp
                  | ok lr =>
                    obtain ⟨r2, hr2⟩ := Option.isSome_iff_exists.mp
                      (ih (pyStrip ((pySlice s (i + 1) j).drop (sep + 1))) 0 (by omega))
                    rw [hr2]
                    cases r2 with
                    | error er => simp
                    | ok rr =>
                      obtain ⟨r3, hr3⟩ := Option.isSome_iff_exists.mp
                        (ih s (j + 1) (by omega))
                      rw [hr3]
                      cases r3 <;> simp
              · rw [if_neg hcjr]; simp
          · rw [if_neg hbr]
            by_cases hal : pyIsAlpha ch = true
            · rw [if_pos hal]
              have hc := countWhileUpto_le
                (fun c => pyIsAlpha c && (pyToLower c == pyToLower ch)) s (i + 1) s.length le_rfl
              obtain ⟨r, hr⟩ := Option.isSome_iff_exists.mp
                (ih s (i + 1 + countWhileUpto
                  (fun c => pyIsAlpha c && (pyToLower c == pyToLower ch)) s (i + 1) s.length)
                  (by omega))
              rw [hr]
              cases r <;> simp
            · rw [if_neg hal]
              have hc := countWhileUpto_le
                (fun c => !pyIsSpace c && !(c == '(') && !(c == ')') && (c == ch)) s
                (i + 1) s.length le_rfl
              obtain ⟨r, hr⟩ := Option.isSome_iff_exists.mp
                (ih s (i + 1 + countWhileUpto
                  (fun c => !pyIsSpace c && !(c == '(') && !(c == ')') && (c == ch)) s
                  (i + 1) s.length) (by omega))
              rw [hr]
              cases r <;> simp
    · rw [build_go, if_neg hi]; simp

/-- Above the sufficient bound the fuel does not influence the result. -/
theorem build_go_irrel : ∀ (f : Nat) (s : List Char) (i : Nat), s.length - i < f →
    ∀ (g : Nat), s.length - i < g → build_go g s i = build_go f s i := by
  intro f
  induction f with
  | zero => intro s i h; omega
  | succ f ih =>
    intro s i h g hg
    obtain ⟨g', rfl⟩ : ∃ g', g = g' + 1 := ⟨g - 1, by omega⟩
    by_cases hi : i < s.length
    · have hch : s.get? i = some (s.get ⟨i, hi⟩) := List.get?_eq_get hi
      rw [build_go, build_go, if_pos hi, if_pos hi, hch]
      set ch := s.get ⟨i, hi⟩ with hchdef
      dsimp only
      by_cases hsp : pyIsSpace ch = true
      · rw [if_pos hsp, if_pos hsp]
        have hc := countWhileUpto_le pyIsSpace s (i + 1) s.length le_rfl
        rw [ih s (i + 1 + countWhileUpto pyIsSpace s (i + 1) s.length) (by omega) g' (by omega)]
      · rw [if_neg hsp, if_neg hsp]
        by_cases hpar : (ch == '(') = true
        · rw [if_pos hpar, if_pos hpar]
          cases hfind : find_matching_paren s i with
          | none => rfl
          | some j =>
            dsimp only
            have hb := find_matching_paren_bounds s i j hfind
            have hsl : (pySlice s (i + 1) j).length = j - (i + 1) :=
              pySlice_length s (i + 1) j (by omega)
            rw [ih (pySlice s (i + 1) j) 0 (by omega) g' (by omega),
              ih s (j + 1) (by omega) g' (by omega)]
        · rw [if_neg hpar, if_neg hpar]
          by_cases hbr : (ch == lbrace) = true
          · rw [if_pos hbr, if_pos hbr]
            have hc := countWhileUpto_le (fun c => !(c == rbrace)) s (i + 1) s.length le_rfl
            set j := i + 1 + countWhileUpto (fun c => !(c == rbrace)) s (i + 1) s.length
              with hjdef
            by_cases hje : j ≥ s.length
            · rw [if_pos hje, if_pos hje]
            · rw [if_neg hje, if_neg hje]
              have hjlt : j < s.length := Nat.lt_of_not_le hje
              have hcj : s.get? j = some (s.get ⟨j, hjlt⟩) := List.get?_eq_get hjlt
              rw [hcj]
              dsimp only
              by_cases hcjr : (s.get ⟨j, hjlt⟩ == rbrace) = true
              · rw [if_pos hcjr, if_pos hcjr]
                have hcl : (pySlice s (i + 1) j).length = j - (i + 1) :=
                  pySlice_length s (i + 1) j (by omega)
                cases hfi : List.findIdx? (fun c => c == '/') (pySlice s (i + 1) j) with
                | none => rfl
                | some sep =>
                  dsimp only
                  have hlb : (pyStrip ((pySlice s (i + 1) j).take sep)).length ≤ j - (i + 1) := by
                    calc (pyStrip ((pySlice s (i + 1) j).take sep)).length
                        ≤ ((pySlice s (i + 1) j).take sep).length := pyStrip_length_le _
                      _ ≤ (pySlice s (i + 1) j).length := by simp [List.length_take]
                      _ = j - (i + 1) := hcl
                  have hrb : (pyStrip ((pySlice s (i + 1) j).drop (sep + 1))).length
                      ≤ j - (i + 1) := by
                    calc (pyStrip ((pySlice s (i + 1) j).drop (sep + 1))).length
                        ≤ ((pySlice s (i + 1) j).drop (sep + 1)).length := pyStrip_length_le _
                      _ ≤ (pySlice s (i + 1) j).length := by simp [List.length_drop]
                      _ = j - (i + 1) := hcl
                  rw [ih (pyStrip ((pySlice s (i + 1) j).take sep)) 0 (by omega) g' (by omega),
                    ih (pyStrip ((pySlice s (i + 1) j).drop (sep + 1))) 0 (by omega) g'
                      (by omega),
                    ih s (j + 1) (by omega) g' (by omega)]
              · rw [if_neg hcjr, if_neg hcjr]
          · rw [if_neg hbr, if_neg hbr]
            by_cases hal : pyIsAlpha ch = true
            · rw [if_pos hal, if_pos hal]
              have hc := countWhileUpto_le
                (fun c => pyIsAlpha c && (pyToLower c == pyToLower ch)) s (i + 1) s.length le_rfl
              rw [ih s (i + 1 + countWhileUpto
                (fun c => pyIsAlpha c && (pyToLower c == pyToLower ch)) s (i + 1) s.length)
                (by omega) g' (by omega)]
            · rw [if_neg hal, if_neg hal]
              have hc := countWhileUpto_le
                (fun c => !pyIsSpace c && !(c == '(') && !(c == ')') && (c == ch)) s
                (i + 1) s.length le_rfl
              rw [ih s (i + 1 + countWhileUpto
                (fun c => !pyIsSpace c && !(c == '(') && !(c == ')') && (c == ch)) s
                (i + 1) s.length) (by omega) g' (by omega)]
    · rw [build_go, build_go, if_neg hi, if_neg hi]

/-- The driver always yields a result at the canonical fuel. -/
theorem build_go_eq_some_build_regex (s : List Char) :
    build_go (s.length + 1) s 0 = some (build_regex s) := by
  obtain ⟨r, hr⟩ := Option.isSome_iff_exists.mp (build_go_total (s.length + 1) s 0 (by omega))
  rw [build_regex, hr]
  rfl

/-- One iteration of the driver loop is exactly: run the segmenter at
the cursor, abort on its error, otherwise prepend its fragment and
continue from the returned next cursor — i.e. `build_go` is the loop of
`build_regex` over `make_regex_segment` (source lines 122-130). -/
theorem build_go_step (s : List Char) (i : Nat) (hi : i < s.length) :
    build_go (s.length + 1) s i =
      match make_regex_segment s i s.length with
      | none => none
      | some (Except.error er) => some (Except.error er)
      | some (Except.ok (p, j)) =>
        match build_go (s.length + 1) s j with
        | none => none
        | some (Except.error er) => some (Except.error er)
        | some (Except.ok rest) => some (Except.ok (p ++ rest)) := by
  have hch : s.get? i = some (s.get ⟨i, hi⟩) := List.get?_eq_get hi
  rw [build_go, if_pos hi]
  unfold make_regex_segment
  rw [hch]
  set ch := s.get ⟨i, hi⟩ with hchdef
  dsimp only
  by_cases hsp : pyIsSpace ch = true
  · rw [if_pos hsp, if_pos hsp]
    have hc := countWhileUpto_le pyIsSpace s (i + 1) s.length le_rfl
    rw [build_go_irrel (s.length + 1) s (i + 1 + countWhileUpto pyIsSpace s (i + 1) s.length)
      (by omega) s.length (by omega)]
  · rw [if_neg hsp, if_neg hsp]
    by_cases hpar : (ch == '(') = true
    · rw [if_pos hpar, if_pos hpar]
      cases hfind : find_matching_paren s i with
      | none => rfl
      | some j =>
        dsimp only
        have hb := find_matching_paren_bounds s i j hfind
        have hsl : (pySlice s (i + 1) j).length = j - (i + 1) :=
          pySlice_length s (i + 1) j (by omega)
        rw [build_go_irrel ((pySlice s (i + 1) j).length + 1) (pySlice s (i + 1) j) 0
          (by omega) s.length (by omega)]
        rw [build_go_eq_some_build_regex (pySlice s (i + 1) j)]
        cases hbuild : build_regex (pySlice s (i + 1) j) with
        | error er => rfl
        | ok inner =>
          dsimp only
          rw [build_go_irrel (s.length + 1) s (j + 1) (by omega) s.length (by omega)]
    · rw [if_neg hpar, if_neg hpar]
      by_cases hbr : (ch == lbrace) = true
      · rw [if_pos hbr, if_pos hbr]
        have hc := countWhileUpto_le (fun c => !(c == rbrace)) s (i + 1) s.length le_rfl
        set j := i + 1 + countWhileUpto (fun c => !(c == rbrace)) s (i + 1) s.length with hjdef
        by_cases hje : j ≥ s.length
        · rw [if_pos hje, if_pos hje]
        · rw [if_neg hje, if_neg hje]
          have hjlt : j < s.length := Nat.lt_of_not_le hje
          have hcj : s.get? j = some (s.get ⟨j, hjlt⟩) := List.get?_eq_get hjlt
          rw [hcj]
          dsimp only
          by_cases hcjr : (s.get ⟨j, hjlt⟩ == rbrace) = true
          · rw [if_pos hcjr, if_pos hcjr]
            have hcl : (pySlice s (i + 1) j).length = j - (i + 1) :=
              pySlice_length s (i + 1) j (by omega)
            cases hfi : List.findIdx? (fun c => c == '/') (pySlice s (i + 1) j) with
            | none => rfl
            | some sep =>
              dsimp only
              have hlb : (pyStrip ((pySlice s (i + 1) j).take sep)).length ≤ j - (i + 1) := by
                calc (pyStrip ((pySlice s (i + 1) j).take sep)).length
                    ≤ ((pySlice s (i + 1) j).take sep).length := pyStrip_length_le _
                  _ ≤ (pySlice s (i + 1) j).length := by simp [List.length_take]
                  _ = j - (i + 1) := hcl
              have hrb : (pyStrip ((pySlice s (i + 1) j).drop (sep + 1))).length
                  ≤ j - (i + 1) := by
                calc (pyStrip ((pySlice s (i + 1) j).drop (sep + 1))).length
                    ≤ ((pySlice s (i + 1) j).drop (sep + 1)).length := pyStrip_length_le _
                  _ ≤ (pySlice s (i + 1) j).length := by simp [List.length_drop]
                  _ = j - (i + 1) := hcl
              rw [build_go_irrel ((pyStrip ((pySlice s (i + 1) j).take sep)).length + 1)
                (pyStrip ((pySlice s (i + 1) j).take sep)) 0 (by omega) s.length (by omega)]
              rw [build_go_eq_some_build_regex (pyStrip ((pySlice s (i + 1) j).take sep))]
              cases hbl : build_regex (pyStrip ((pySlice s (i + 1) j).take sep)) with
              | error er => rfl
              | ok lr =>
                dsimp only
                rw [build_go_irrel ((pyStrip ((pySlice s (i + 1) j).drop (sep + 1))).length + 1)
                  (pyStrip ((pySlice s (i + 1) j).drop (sep + 1))) 0 (by omega) s.length
                  (by omega)]
                rw [build_go_eq_some_build_regex (pyStrip ((pySlice s (i + 1) j).drop (sep + 1)))]
                cases hbrr : build_regex (pyStrip ((pySlice s (i + 1) j).drop (sep + 1))) with
                | error er => rfl
                | ok rr =>
                  dsimp only
                  rw [build_go_irrel (s.length + 1) s (j + 1) (by omega) s.length (by omega)]
          · rw [if_neg hcjr, if_neg hcjr]
      · rw [if_neg hbr, if_neg hbr]
        by_cases hal : pyIsAlpha ch = true
        · rw [if_pos hal, if_pos hal]
          have hc := countWhileUpto_le
            (fun c => pyIsAlpha c && (pyToLower c == pyToLower ch)) s (i + 1) s.length le_rfl
          rw [build_go_irrel (s.length + 1) s (i + 1 + countWhileUpto
            (fun c => pyIsAlpha c && (pyToLower c == pyToLower ch)) s (i + 1) s.length)
            (by omega) s.length (by omega)]
        · rw [if_neg hal, if_neg hal]
          have hc := countWhileUpto_le
            (fun c => !pyIsSpace c && !(c == '(') && !(c == ')') && (c == ch)) s
            (i + 1) s.length le_rfl
          rw [build_go_irrel (s.length + 1) s (i + 1 + countWhileUpto
            (fun c => !pyIsSpace c && !(c == '(') && !(c == ')') && (c == ch)) s
            (i + 1) s.length) (by omega) s.length (by omega)]

/-! ## The segmenter advances the cursor -/

theorem make_regex_segment_advances (s : List Char) (i : Nat) (p : String) (j : Nat)
    (h : make_regex_segment s i s.length = some (Except.ok (p, j))) :
    i < j ∧ j ≤ s.length := by
  unfold make_regex_segment at h
  cases hget : s.get? i with
  | none => rw [hget] at h; simp at h
  | some ch =>
    rw [hget] at h
    dsimp only at h
    have hilen : i < s.length := by
      by_contra hni
      rw [List.get?_eq_none.mpr (Nat.le_of_not_lt hni)] at hget
      exact Option.noConfusion hget
    by_cases hsp : pyIsSpace ch = true
    · rw [if_pos hsp] at h
      simp only [Option.some.injEq, Except.ok.injEq, Prod.mk.injEq] at h
      have hc := countWhileUpto_le pyIsSpace s (i + 1) s.length le_rfl
      omega
    · rw [if_neg hsp] at h
      by_cases hpar : (ch == '(') = true
      · rw [if_pos hpar] at h
        cases hfind : find_matching_paren s i with
        | none => rw [hfind] at h; simp at h
        | some j' =>
          rw [hfind] at h
          dsimp only at h
          have hb := find_matching_paren_bounds s i j' hfind
          cases hbuild : build_regex (pySlice s (i + 1) j') with
          | error er => rw [hbuild] at h; simp at h
          | ok inner =>
            rw [hbuild] at h
            simp only [Option.some.injEq, Except.ok.injEq, Prod.mk.injEq] at h
            omega
      · rw [if_neg hpar] at h
        by_cases hbr : (ch == lbrace) = true
        · rw [if_pos hbr] at h
          have hc := countWhileUpto_le (fun c => !(c == rbrace)) s (i + 1) s.length le_rfl
          set jb := i + 1 + countWhileUpto (fun c => !(c == rbrace)) s (i + 1) s.length
            with hjbdef
          by_cases hje : jb ≥ s.length
          · rw [if_pos hje] at h; simp at h
          · rw [if_neg hje] at h
            cases hgj : s.get? jb with
            | none => rw [hgj] at h; simp at h
            | some cj =>
              rw [hgj] at h
              dsimp only at h
              by_cases hcjr : (cj == rbrace) = true
              · rw [if_pos hcjr] at h
                cases hfi : List.findIdx? (fun c => c == '/') (pySlice s (i + 1) jb) with
                | none => rw [hfi] at h; simp at h
                | some sep =>
                  rw [hfi] at h
                  dsimp only at h
                  cases hbl : build_regex (pyStrip ((pySlice s (i + 1) jb).take sep)) with
                  | error er => rw [hbl] at h; simp at h
                  | ok lr =>
                    rw [hbl] at h
                    dsimp only at h
                    cases hbrr :
                        build_regex (pyStrip ((pySlice s (i + 1) jb).drop (sep + 1))) with
                    | error er => rw [hbrr] at h; simp at h
                    | ok rr =>
                      rw [hbrr] at h
                      simp only [Option.some.injEq, Except.ok.injEq, Prod.mk.injEq] at h
                      omega
              · rw [if_neg hcjr] at h; simp at h
        · rw [if_neg hbr] at h
          by_cases hal : pyIsAlpha ch = true
          · rw [if_pos hal] at h
            simp only [Option.some.injEq, Except.ok.injEq, Prod.mk.injEq] at h
            have hc := countWhileUpto_le
              (fun c => pyIsAlpha c && (pyToLower c == pyToLower ch)) s (i + 1) s.length le_rfl
            omega
          · rw [if_neg hal] at h
            simp only [Option.some.injEq, Except.ok.injEq, Prod.mk.injEq] at h
            have hc := countWhileUpto_le
              (fun c => !pyIsSpace c && !(c == '(') && !(c == ')') && (c == ch)) s
              (i + 1) s.length le_rfl
            omega

/-! ## Character-level facts -/

theorem toNat_ofNat_valid (n : Nat) (h : n < 55296) : (Char.ofNat n).toNat = n := by
  have hv : n.isValidChar := Or.inl h
  rw [Char.ofNat, dif_pos hv]
  rfl

theorem char_ne_of_toNat_ne {c d : Char} (h : c.toNat ≠ d.toNat) : c ≠ d := by
  intro he; exact h (congrArg Char.toNat he)

theorem accentBase_eq_self {n : Nat} (h : n < 192) : accentBase n = n := by
  unfold accentBase
  repeat rw [if_neg (by simp only [Bool.and_eq_true, decide_eq_true_eq, beq_iff_eq]; omega)]

theorem countWhileUpto_zero (p : Char → Bool) (s : List Char) (j : Nat)
    (h : ∀ (hj : j < s.length), p (s.get ⟨j, hj⟩) = false) :
    countWhileUpto p s j s.length = 0 := by
  unfold countWhileUpto
  rw [List.take_length]
  by_cases hj : j < s.length
  · rw [List.drop_eq_getElem_cons hj, List.takeWhile_cons_of_neg]
    · rfl
    · have := h hj
      simp only [List.get_eq_getElem] at this
      simp [this]
  · rw [List.drop_eq_nil_of_le (Nat.le_of_not_lt hj)]; rfl

theorem countWhileUpto_all (p : Char → Bool) (s : List Char) (j : Nat)
    (h : ∀ c ∈ s, p c = true) : countWhileUpto p s j s.length = s.length - j := by
  unfold countWhileUpto
  rw [List.take_length]
  have : (s.drop j).takeWhile p = s.drop j :=
    List.takeWhile_eq_self_iff.mpr (fun x hx => h x (List.mem_of_mem_drop hx))
  rw [this, List.length_drop]

theorem countWhileUpto_false (p : Char → Bool) (hp : ∀ c, p c = false)
    (s : List Char) (j e : Nat) : countWhileUpto p s j e = 0 := by
  unfold countWhileUpto
  cases hl : (s.take e).drop j with
  | nil => rfl
  | cons a l => rw [List.takeWhile_cons_of_neg (by simp [hp a])]; rfl

theorem asciiLetter_not_space {c : Char} (h : isAsciiLetter c = true) :
    pyIsSpace c = false := by
  unfold isAsciiLetter at h
  unfold pyIsSpace
  simp only [Bool.or_eq_true, Bool.and_eq_true, decide_eq_true_eq] at h
  simp only [Bool.or_eq_false_iff, Bool.and_eq_false_iff, beq_eq_false_iff_ne, ne_eq,
    decide_eq_true_eq, decide_eq_false_iff_not]
  omega

theorem asciiLetter_alpha {c : Char} (h : isAsciiLetter c = true) :
    pyIsAlpha c = true := by
  unfold isAsciiLetter at h
  unfold pyIsAlpha
  simp only [Bool.or_eq_true, Bool.and_eq_true, decide_eq_true_eq] at h
  simp only [Bool.or_eq_true, Bool.and_eq_true, decide_eq_true_eq]
  omega

theorem asciiLetter_ne_lparen {c : Char} (h : isAsciiLetter c = true) :
    (c == '(') = false := by
  unfold isAsciiLetter at h
  simp only [Bool.or_eq_true, Bool.and_eq_true, decide_eq_true_eq] at h
  simp only [beq_eq_false_iff_ne, ne_eq]
  intro he
  have : c.toNat = 40 := by rw [he]; rfl
  omega

theorem asciiLetter_ne_lbrace {c : Char} (h : isAsciiLetter c = true) :
    (c == lbrace) = false := by
  unfold isAsciiLetter at h
  simp only [Bool.or_eq_true, Bool.and_eq_true, decide_eq_true_eq] at h
  simp only [beq_eq_false_iff_ne, ne_eq]
  intro he
  have : c.toNat = 123 := by rw [he]; rfl
  omega

theorem pyToLower_of_lower {c : Char} (h97 : 97 ≤ c.toNat) (h122 : c.toNat ≤ 122) :
    pyToLower c = c := by
  unfold pyToLower
  rw [if_neg (by simp; omega), if_neg (by simp; omega)]

theorem pyToLower_of_upper {c : Char} (h65 : 65 ≤ c.toNat) (h90 : c.toNat ≤ 90) :
    pyToLower c = Char.ofNat (c.toNat + 32) := by
  unfold pyToLower
  rw [if_pos (by simp; omega)]

theorem pyToUpper_of_lower {c : Char} (h97 : 97 ≤ c.toNat) (h122 : c.toNat ≤ 122) :
    pyToUpper c = Char.ofNat (c.toNat - 32) := by
  unfold pyToUpper
  rw [if_pos (by simp; omega)]

theorem pyToUpper_of_upper {c : Char} (h65 : 65 ≤ c.toNat) (h90 : c.toNat ≤ 90) :
    pyToUpper c = c := by
  unfold pyToUpper
  rw [if_neg (by simp; omega), if_neg (by simp; omega)]

theorem strip_accents_ascii {c : Char} (h : c.toNat < 192) : strip_accents c = [c] := by
  unfold strip_accents
  rw [accentBase_eq_self h, Char.ofNat_toNat]

/-- For an unaccented ASCII letter the emitted class content is exactly
lowercase form then uppercase form. -/
theorem letterClass_ascii {c : Char} (h : isAsciiLetter c = true) :
    letterClass c = [pyToLower c, pyToUpper c] := by
  have hrange : (97 ≤ c.toNat ∧ c.toNat ≤ 122) ∨ (65 ≤ c.toNat ∧ c.toNat ≤ 90) := by
    unfold isAsciiLetter at h
    simp only [Bool.or_eq_true, Bool.and_eq_true, decide_eq_true_eq] at h
    exact h
  have hlt : c.toNat < 192 := by omega
  unfold letterClass
  rw [strip_accents_ascii hlt]
  dsimp only
  rw [if_neg (by simp)]
  unfold addCaseForms
  have hne : pyToUpper c ≠ pyToLower c := by
    rcases hrange with ⟨h1, h2⟩ | ⟨h1, h2⟩
    · rw [pyToLower_of_lower h1 h2, pyToUpper_of_lower h1 h2]
      apply char_ne_of_toNat_ne
      rw [toNat_ofNat_valid _ (by omega)]
      omega
    · rw [pyToLower_of_upper h1 h2, pyToUpper_of_upper h1 h2]
      apply char_ne_of_toNat_ne
      rw [toNat_ofNat_valid _ (by omega)]
      omega
  simp [hne]

/-! ## Behaviour of the engine on restricted inputs -/

/-- On a string of unaccented ASCII letters with no two adjacent
case-fold-equal letters, the driver emits one two-character bracket
class per letter, in input order. -/
theorem build_go_plain : ∀ (f : Nat) (s : List Char) (i : Nat), s.length - i < f →
    (∀ c ∈ s, isAsciiLetter c = true) →
    (∀ (k : Nat) (hk : k + 1 < s.length),
      pyToLower (s.get ⟨k, by omega⟩) ≠ pyToLower (s.get ⟨k + 1, hk⟩)) →
    build_go f s i = some (Except.ok (strConcat ((s.drop i).map asciiBracket))) := by
  intro f
  induction f with
  | zero => intro s i h _ _; omega
  | succ f ih =>
    intro s i h hall hadj
    by_cases hi : i < s.length
    · have hch : s.get? i = some (s.get ⟨i, hi⟩) := List.get?_eq_get hi
      set ch := s.get ⟨i, hi⟩ with hchdef
      have hA : isAsciiLetter ch = true := hall ch (List.get_mem s i hi)
      rw [build_go, if_pos hi, hch]
      dsimp only
      rw [if_neg (by simp [asciiLetter_not_space hA]),
        if_neg (by simp [asciiLetter_ne_lparen hA]),
        if_neg (by simp [asciiLetter_ne_lbrace hA]),
        if_pos (asciiLetter_alpha hA)]
      have hcount : countWhileUpto (fun c => pyIsAlpha c && (pyToLower c == pyToLower ch)) s
          (i + 1) s.length = 0 := by
        apply countWhileUpto_zero
        intro hj
        have hne := hadj i hj
        have hb : (pyToLower (s.get ⟨i + 1, hj⟩) == pyToLower ch) = false :=
          beq_eq_false_iff_ne.mpr (Ne.symm hne)
        simp only [List.get_eq_getElem] at hb
        simp [hb]
      rw [hcount]
      have hsub : i + 1 + 0 - i = 1 := by omega
      rw [hsub, if_neg (by omega)]
      rw [ih s (i + 1) (by omega) hall hadj]
      rw [letterClass_ascii hA]
      rw [List.drop_eq_getElem_cons hi, List.map_cons]
      rfl
    · rw [build_go, if_neg hi, List.drop_eq_nil_of_le (Nat.le_of_not_lt hi)]
      rfl

/-- A non-empty all-whitespace input compiles to the single fragment
`\s+`, independently of its length. -/
theorem build_regex_all_space (s : List Char) (hne : s ≠ [])
    (hsp : ∀ c ∈ s, pyIsSpace c = true) : build_regex s = Except.ok "\\s+" := by
  have hlen : 0 < s.length := List.length_pos.mpr hne
  have hch : s.get? 0 = some (s.get ⟨0, hlen⟩) := List.get?_eq_get hlen
  have hspc : pyIsSpace (s.get ⟨0, hlen⟩) = true := hsp _ (List.get_mem s 0 hlen)
  unfold build_regex
  rw [build_go, if_pos hlen, hch]
  dsimp only
  rw [if_pos hspc]
  rw [countWhileUpto_all pyIsSpace s (0 + 1) hsp]
  have hj : 0 + 1 + (s.length - (0 + 1)) = s.length := by omega
  rw [hj]
  rw [build_go_irrel 1 s s.length (by omega) s.length (by omega)]
  rw [build_go, if_neg (lt_irrefl s.length)]
  simp

/-- Two consecutive letters that case-fold to the same base letter form
a single run of length two: the class is emitted once, with the bounded
repetition suffix. -/
theorem build_regex_pair (c d : Char) (hc : isAsciiLetter c = true)
    (hd : isAsciiLetter d = true) (h : pyToLower c = pyToLower d) :
    build_regex [c, d] = Except.ok (asciiBracket c ++ "\x7b2\x7d") := by
  have hcount : countWhileUpto (fun x => pyIsAlpha x && (pyToLower x == pyToLower c)) [c, d]
      (0 + 1) [c, d].length = 1 := by
    show (List.takeWhile (fun x => pyIsAlpha x && (pyToLower x == pyToLower c))
      (([c, d].take 2).drop 1)).length = 1
    have h1 : ([c, d].take 2).drop 1 = [d] := rfl
    rw [h1, List.takeWhile_cons_of_pos]
    · rfl
    · simp [asciiLetter_alpha hd, h.symm]
  unfold build_regex
  rw [build_go]
  rw [if_pos (show 0 < [c, d].length by simp)]
  have hg : [c, d].get? 0 = some c := rfl
  rw [hg]
  dsimp only
  rw [if_neg (by simp [asciiLetter_not_space hc]),
    if_neg (by simp [asciiLetter_ne_lparen hc]),
    if_neg (by simp [asciiLetter_ne_lbrace hc]),
    if_pos (asciiLetter_alpha hc)]
  rw [hcount]
  rw [if_pos (by omega)]
  rw [build_go_irrel 1 [c, d] (0 + 1 + 1) (by simp) ([c, d].length) (by simp)]
  rw [build_go, if_neg (by simp)]
  dsimp only
  rw [letterClass_ascii hc]
  simp only [Option.getD_some]
  apply congrArg
  apply String.ext
  simp [asciiBracket]
  decide

/-! ## The brace scan -/

theorem takeWhile_stop {α : Type} (p : α → Bool) (l : List α)
    (h : (l.takeWhile p).length < l.length) :
    ∃ x, l.get? (l.takeWhile p).length = some x ∧ p x = false := by
  induction l with
  | nil => simp at h
  | cons a t ih =>
    by_cases hp : p a = true
    · rw [List.takeWhile_cons_of_pos hp] at h ⊢
      simp only [List.length_cons, Nat.add_lt_add_iff_right] at h
      obtain ⟨x, hx, hpx⟩ := ih h
      exact ⟨x, by simpa using hx, hpx⟩
    · rw [List.takeWhile_cons_of_neg (by simp [hp])] at h ⊢
      exact ⟨a, rfl, by simpa using hp⟩

theorem countWhileUpto_eq_of_all (p : Char → Bool) (s : List Char) (j e : Nat)
    (h : ∀ c ∈ pySlice s j e, p c = true) :
    countWhileUpto p s j e = (pySlice s j e).length := by
  unfold countWhileUpto
  rw [show ((s.take e).drop j).takeWhile p = (s.take e).drop j from
    List.takeWhile_eq_self_iff.mpr h]
  rfl

/-- When the brace scan stops before the bound, it stops on a closing
brace. -/
theorem brace_scan_get (s : List Char) (i e : Nat) (he : e ≤ s.length)
    (hlt : i + 1 + countWhileUpto (fun c => !(c == rbrace)) s (i + 1) e < e) :
    s.get? (i + 1 + countWhileUpto (fun c => !(c == rbrace)) s (i + 1) e) = some rbrace := by
  have hi1 : i + 1 ≤ e := by omega
  have hlen : ((s.take e).drop (i + 1)).length = e - (i + 1) := by
    simp [List.length_drop, List.length_take, Nat.min_eq_left he]
  have hcnt : countWhileUpto (fun c => !(c == rbrace)) s (i + 1) e =
      (((s.take e).drop (i + 1)).takeWhile (fun c => !(c == rbrace))).length := rfl
  have hcl : (((s.take e).drop (i + 1)).takeWhile (fun c => !(c == rbrace))).length <
      ((s.take e).drop (i + 1)).length := by omega
  obtain ⟨x, hx, hpx⟩ := takeWhile_stop (fun c => !(c == rbrace)) ((s.take e).drop (i + 1)) hcl
  have hxr : x = rbrace := by simpa using hpx
  subst hxr
  rw [hcnt]
  rw [List.get?_eq_getElem?] at hx ⊢
  rw [List.getElem?_drop] at hx
  rw [List.getElem?_take_of_lt (by omega)] at hx
  exact hx

/-! ## Branch-level behaviour of the segmenter -/

/-- At an opening parenthesis the segmenter delegates to
`find_matching_paren`, recursively compiles the enclosed sub-range and
wraps it as a non-capturing optional group, resuming after the close. -/
theorem segment_group_eq (s : List Char) (i e : Nat) (hch : s.get? i = some '(') :
    make_regex_segment s i e =
      (match find_matching_paren s i with
       | none => some (Except.error RegexError.unmatchedParen)
       | some j =>
         match build_regex (pySlice s (i + 1) j) with
         | Except.error er => some (Except.error er)
         | Except.ok inner => some (Except.ok ("(?:" ++ inner ++ ")?", j + 1))) := by
  unfold make_regex_segment
  rw [hch]
  dsimp only
  rw [if_neg (by decide), if_pos (by decide)]

/-- No closing brace before the bound: the brace scan runs to the bound
and the segmenter reports the unmatched-brace error. -/
theorem segment_brace_unmatched (s : List Char) (i e : Nat) (hch : s.get? i = some lbrace)
    (hi : i < e) (he : e ≤ s.length) (hnb : rbrace ∉ pySlice s (i + 1) e) :
    make_regex_segment s i e = some (Except.error RegexError.unmatchedBrace) := by
  have hcnt : countWhileUpto (fun c => !(c == rbrace)) s (i + 1) e =
      (pySlice s (i + 1) e).length := by
    apply countWhileUpto_eq_of_all
    intro c hc
    simp only [Bool.not_eq_true', beq_eq_false_iff_ne, ne_eq]
    intro hcr
    exact hnb (hcr ▸ hc)
  have hlen : (pySlice s (i + 1) e).length = e - (i + 1) := by
    unfold pySlice
    simp [List.length_drop, List.length_take, Nat.min_eq_left he]
  unfold make_regex_segment
  rw [hch]
  dsimp only
  rw [if_neg (by decide), if_neg (by decide), if_pos (by decide)]
  rw [hcnt, hlen, if_pos (by omega)]

/-- Closing brace found but no `/` inside: invalid placeholder. -/
theorem segment_brace_no_slash (s : List Char) (i e js : Nat) (hch : s.get? i = some lbrace)
    (he : e ≤ s.length)
    (hjs : js = i + 1 + countWhileUpto (fun c => !(c == rbrace)) s (i + 1) e)
    (hlt : js < e)
    (hsep : List.findIdx? (fun c => c == '/') (pySlice s (i + 1) js) = none) :
    make_regex_segment s i e = some (Except.error RegexError.invalidPlaceholder) := by
  subst hjs
  unfold make_regex_segment
  rw [hch]
  dsimp only
  rw [if_neg (by decide), if_neg (by decide), if_pos (by decide)]
  rw [if_neg (by omega)]
  rw [brace_scan_get s i e he hlt]
  dsimp only
  rw [if_pos (by decide)]
  rw [hsep]

/-- Closing brace found and a separator present: both trimmed sides are
compiled independently and joined as an alternation of two
non-capturing groups; the cursor resumes just after the brace. -/
theorem segment_placeholder_eq (s : List Char) (i e js sep : Nat)
    (hch : s.get? i = some lbrace) (he : e ≤ s.length)
    (hjs : js = i + 1 + countWhileUpto (fun c => !(c == rbrace)) s (i + 1) e)
    (hlt : js < e)
    (hsep : List.findIdx? (fun c => c == '/') (pySlice s (i + 1) js) = some sep) :
    make_regex_segment s i e =
      (match build_regex (pyStrip ((pySlice s (i + 1) js).take sep)) with
       | Except.error er => some (Except.error er)
       | Except.ok lr =>
         match build_regex (pyStrip ((pySlice s (i + 1) js).drop (sep + 1))) with
         | Except.error er => some (Except.error er)
         | Except.ok rr =>
           some (Except.ok ("(?:" ++ lr ++ ")|(?:" ++ rr ++ ")", js + 1))) := by
  subst hjs
  unfold make_regex_segment
  rw [hch]
  dsimp only
  rw [if_neg (by decide), if_neg (by decide), if_pos (by decide)]
  rw [if_neg (by omega)]
  rw [brace_scan_get s i e he hlt]
  dsimp only
  rw [if_pos (by decide)]
  rw [hsep]

/-- A closing parenthesis reached by the segmenter is emitted as a
stand-alone escaped literal: the literal-run extension stops at
parentheses, so the run never grows and no repetition suffix appears. -/
theorem segment_rparen_eq (s : List Char) (i e : Nat) (hch : s.get? i = some ')') :
    make_regex_segment s i e = some (Except.ok ("\\)", i + 1)) := by
  have hpred : ∀ c : Char,
      (!pyIsSpace c && !(c == '(') && !(c == ')') && (c == ')')) = false := by
    intro c
    by_cases h : (c == ')') = true
    · simp [h]
    · simp [h]
  unfold make_regex_segment
  rw [hch]
  dsimp only
  rw [if_neg (by decide), if_neg (by decide), if_neg (by decide), if_neg (by decide)]
  rw [countWhileUpto_false _ hpred]
  have hone : i + 1 + 0 - i = 1 := by omega
  rw [hone, if_neg (by omega)]
  rfl

/-! ## The emitted letter class has no duplicates -/

theorem addCaseForms_nodup (acc : List Char) (c : Char) (h : acc.Nodup) :
    (addCaseForms acc c).Nodup := by
  unfold addCaseForms
  by_cases h1 : acc.contains (pyToLower c) = true
  · rw [if_pos h1]
    by_cases h2 : acc.contains (pyToUpper c) = true
    · rw [if_pos h2]; exact h
    · rw [if_neg h2]
      rw [List.nodup_append]
      refine ⟨h, List.nodup_singleton _, ?_⟩
      intro x hx hmem
      simp only [List.mem_singleton] at hmem
      subst hmem
      exact h2 (List.elem_iff.mpr hx)
  · rw [if_neg h1]
    have hn1 : (acc ++ [pyToLower c]).Nodup := by
      rw [List.nodup_append]
      refine ⟨h, List.nodup_singleton _, ?_⟩
      intro x hx hmem
      simp only [List.mem_singleton] at hmem
      subst hmem
      exact h1 (List.elem_iff.mpr hx)
    by_cases h2 : (acc ++ [pyToLower c]).contains (pyToUpper c) = true
    · rw [if_pos h2]; exact hn1
    · rw [if_neg h2]
      rw [List.nodup_append]
      refine ⟨hn1, List.nodup_singleton _, ?_⟩
      intro x hx hmem
      simp only [List.mem_singleton] at hmem
      subst hmem
      exact h2 (List.elem_iff.mpr hx)

theorem letterClass_nodup (c : Char) : (letterClass c).Nodup := by
  unfold letterClass
  cases hsa : strip_accents c with
  | nil => exact addCaseForms_nodup _ _ List.nodup_nil
  | cons b t =>
    cases t with
    | nil =>
      dsimp only
      by_cases hcond : (pyIsAlpha b && !(pyToLower b == pyToLower c)) = true
      · rw [if_pos hcond]
        exact addCaseForms_nodup _ _ (addCaseForms_nodup _ _ List.nodup_nil)
      · rw [if_neg hcond]
        exact addCaseForms_nodup _ _ List.nodup_nil
    | cons b2 t2 => exact addCaseForms_nodup _ _ List.nodup_nil

/-! ## The claims -/

/-- C1: an opening parenthesis at the cursor is resolved to its
matching close by the depth-scanning `find_matching_paren`; the enclosed
sub-range is compiled by a fresh recursive `build_regex` pass and
emitted as a non-capturing optional group with the cursor resuming after
the close.  Nested groups yield nested optionals
(`build("a(b(c)d)e")`), and sibling groups (`"(a)(b)"`) resolve
independently without over-scanning into each other. -/
theorem claim_group_resolution :
    (∀ (s : List Char) (i e : Nat), s.get? i = some '(' →
      make_regex_segment s i e =
        (match find_matching_paren s i with
         | none => some (Except.error RegexError.unmatchedParen)
         | some j =>
           match build_regex (pySlice s (i + 1) j) with
           | Except.error er => some (Except.error er)
           | Except.ok inner => some (Except.ok ("(?:" ++ inner ++ ")?", j + 1))))
    ∧ make_regex "a(b(c)d)e" = Except.ok "[aA](?:[bB](?:[cC])?[dD])?[eE]"
    ∧ make_regex "(a)(b)" = Except.ok "(?:[aA])?(?:[bB])?"
    ∧ find_matching_paren "(a)(b)".data 0 = some 2
    ∧ find_matching_paren "(a)(b)".data 3 = some 5 :=
  ⟨segment_group_eq, rfl, rfl, rfl, rfl⟩

theorem claim_group_resolution_witness :
    make_regex_segment "(a)".data 0 3 =
      (match find_matching_paren "(a)".data 0 with
       | none => some (Except.error RegexError.unmatchedParen)
       | some j =>
         match build_regex (pySlice "(a)".data (0 + 1) j) with
         | Except.error er => some (Except.error er)
         | Except.ok inner => some (Except.ok ("(?:" ++ inner ++ ")?", j + 1))) :=
  claim_group_resolution.1 "(a)".data 0 3 rfl

/-- C2: the three error kinds are raised exactly at their detection
conditions — an opening parenthesis whose depth scan never returns to
zero, an opening brace with no closing brace before the bound, a
brace-delimited body with no `/` — shown on the three spec examples and
as per-site conditional laws; any compilation error aborts the whole
`generate` call unmodified, so no pattern output is produced. -/
theorem claim_error_conditions :
    make_regex "colo(u" = Except.error RegexError.unmatchedParen
    ∧ make_regex "end\x7b2/two" = Except.error RegexError.unmatchedBrace
    ∧ make_regex "I have \x7b2 two\x7d cats" = Except.error RegexError.invalidPlaceholder
    ∧ (∀ (s : List Char) (i e : Nat), s.get? i = some '(' →
        find_matching_paren s i = none →
        make_regex_segment s i e = some (Except.error RegexError.unmatchedParen))
    ∧ (∀ (s : List Char) (i e : Nat), s.get? i = some lbrace → i < e → e ≤ s.length →
        rbrace ∉ pySlice s (i + 1) e →
        make_regex_segment s i e = some (Except.error RegexError.unmatchedBrace))
    ∧ (∀ (s : List Char) (i e js : Nat), s.get? i = some lbrace → e ≤ s.length →
        js = i + 1 + countWhileUpto (fun c => !(c == rbrace)) s (i + 1) e → js < e →
        List.findIdx? (fun c => c == '/') (pySlice s (i + 1) js) = none →
        make_regex_segment s i e = some (Except.error RegexError.invalidPlaceholder))
    ∧ (∀ (t1 : String) (t2 : Option String) (er : RegexError),
        make_regex t1 = Except.error er → generate t1 t2 = Except.error er) := by
  refine ⟨rfl, rfl, rfl, ?_, segment_brace_unmatched, segment_brace_no_slash, ?_⟩
  · intro s i e hch hfind
    rw [segment_group_eq s i e hch, hfind]
  · intro t1 t2 er h
    unfold generate
    rw [h]

theorem claim_error_conditions_witness :
    make_regex_segment "(u".data 0 2 = some (Except.error RegexError.unmatchedParen) ∧
    generate "colo(u" (some "x") = Except.error RegexError.unmatchedParen :=
  ⟨claim_error_conditions.2.2.2.1 "(u".data 0 2 rfl rfl,
   claim_error_conditions.2.2.2.2.2.2 "colo(u" (some "x") RegexError.unmatchedParen rfl⟩

/-- C3: a placeholder is scanned to the first closing brace within the
bound, its content is split at the first `/`, both sides are trimmed
and compiled by independent recursive `build_regex` calls, and the
emitted fragment is the alternation of the two non-capturing groups;
`build("\x7b2/two\x7d")` gives the digit side as a bare literal. -/
theorem claim_placeholder_compilation :
    make_regex "\x7b2/two\x7d" = Except.ok "(?:2)|(?:[tT][wW][oO])"
    ∧ make_regex "\x7b 2 / two \x7d" = Except.ok "(?:2)|(?:[tT][wW][oO])"
    ∧ (∀ (s : List Char) (i e js sep : Nat),
        s.get? i = some lbrace → e ≤ s.length →
        js = i + 1 + countWhileUpto (fun c => !(c == rbrace)) s (i + 1) e → js < e →
        List.findIdx? (fun c => c == '/') (pySlice s (i + 1) js) = some sep →
        make_regex_segment s i e =
          (match build_regex (pyStrip ((pySlice s (i + 1) js).take sep)) with
           | Except.error er => some (Except.error er)
           | Except.ok lr =>
             match build_regex (pyStrip ((pySlice s (i + 1) js).drop (sep + 1))) with
             | Except.error er => some (Except.error er)
             | Except.ok rr =>
               some (Except.ok ("(?:" ++ lr ++ ")|(?:" ++ rr ++ ")", js + 1)))) :=
  ⟨rfl, rfl, segment_placeholder_eq⟩

theorem claim_placeholder_compilation_witness :
    make_regex_segment "\x7ba/b\x7d".data 0 5 =
      (match build_regex (pyStrip ((pySlice "\x7ba/b\x7d".data (0 + 1) 4).take 1)) with
       | Except.error er => some (Except.error er)
       | Except.ok lr =>
         match build_regex (pyStrip ((pySlice "\x7ba/b\x7d".data (0 + 1) 4).drop (1 + 1))) with
         | Except.error er => some (Except.error er)
         | Except.ok rr =>
           some (Except.ok ("(?:" ++ lr ++ ")|(?:" ++ rr ++ ")", 4 + 1))) :=
  claim_placeholder_compilation.2.2 "\x7ba/b\x7d".data 0 5 4 1 rfl (by decide) (by decide)
    (by decide) rfl

/-- C4: a letter run extends across case-fold-equal letters (so `"Aa"`
is one run of length two) and gets a bounded repetition suffix; the
whole spec example compresses as stated; every maximal whitespace run,
whatever its length, collapses to the single fragment for one-or-more
whitespace. -/
theorem claim_repeat_compression :
    make_regex "Good   job!!" = Except.ok "[gG][oO]\x7b2\x7d[dD]\\s+[jJ][oO][bB]!\x7b2\x7d"
    ∧ make_regex "Aa" = Except.ok "[aA]\x7b2\x7d"
    ∧ (∀ (c d : Char), isAsciiLetter c = true → isAsciiLetter d = true →
        pyToLower c = pyToLower d →
        build_regex [c, d] = Except.ok (asciiBracket c ++ "\x7b2\x7d"))
    ∧ (∀ (s : List Char), s ≠ [] → (∀ c ∈ s, pyIsSpace c = true) →
        build_regex s = Except.ok "\\s+") :=
  ⟨rfl, rfl, build_regex_pair, build_regex_all_space⟩

theorem claim_repeat_compression_witness :
    build_regex [Char.ofNat 65, Char.ofNat 97] =
      Except.ok (asciiBracket (Char.ofNat 65) ++ "\x7b2\x7d") :=
  claim_repeat_compression.2.2.1 (Char.ofNat 65) (Char.ofNat 97) (by decide) (by decide)
    (by decide)

/-- C5: for plain unaccented ASCII letters with no two adjacent
case-fold-equal letters (and no parens, braces or whitespace), the
output is exactly one two-character bracket class per letter, lowercase
form first, in input order. -/
theorem claim_plain_letters :
    (∀ (s : List Char), s ≠ [] → (∀ c ∈ s, isAsciiLetter c = true) →
      List.Chain' (fun a b => pyToLower a ≠ pyToLower b) s →
      build_regex s = Except.ok (strConcat (s.map asciiBracket)))
    ∧ make_regex "Hi" = Except.ok "[hH][iI]" := by
  constructor
  · intro s hne hall hchain
    have hadj : ∀ (k : Nat) (hk : k + 1 < s.length),
        pyToLower (s.get ⟨k, by omega⟩) ≠ pyToLower (s.get ⟨k + 1, hk⟩) := by
      rw [List.chain'_iff_get] at hchain
      intro k hk
      exact hchain k (by omega)
    unfold build_regex
    rw [build_go_plain (s.length + 1) s 0 (by omega) hall hadj]
    rw [List.drop_zero]
    rfl
  · rfl

theorem claim_plain_letters_witness :
    build_regex ['H', 'i'] = Except.ok (strConcat (['H', 'i'].map asciiBracket)) :=
  claim_plain_letters.1 ['H', 'i'] (by decide) (by decide)
    (List.chain'_pair.mpr (by decide))

/-- C6: `generate` returns the bare compilation of a single text and the
alternation of the two wrapped compilations for two texts; any
compilation error of either input is propagated unmodified, the first
error winning and no output being produced. -/
theorem claim_generate_combiner :
    generate "Hi" none = Except.ok "[hH][iI]"
    ∧ generate "Hi" (some "Bye") = Except.ok "(?:[hH][iI])|(?:[bB][yY][eE])"
    ∧ (∀ (t1 : String) (r1 : String), make_regex t1 = Except.ok r1 →
        generate t1 none = Except.ok r1)
    ∧ (∀ (t1 t2 : String) (r1 r2 : String), make_regex t1 = Except.ok r1 →
        make_regex t2 = Except.ok r2 →
        generate t1 (some t2) = Except.ok ("(?:" ++ r1 ++ ")|(?:" ++ r2 ++ ")"))
    ∧ (∀ (t1 : String) (t2 : Option String) (er : RegexError),
        make_regex t1 = Except.error er → generate t1 t2 = Except.error er)
    ∧ (∀ (t1 t2 : String) (r1 : String) (er : RegexError), make_regex t1 = Except.ok r1 →
        make_regex t2 = Except.error er →
        generate t1 (some t2) = Except.error er) := by
  refine ⟨rfl, rfl, ?_, ?_, ?_, ?_⟩
  · intro t1 r1 h1
    unfold generate
    rw [h1]
  · intro t1 t2 r1 r2 h1 h2
    unfold generate
    rw [h1]
    dsimp only
    rw [h2]
  · intro t1 t2 er h1
    unfold generate
    rw [h1]
  · intro t1 t2 r1 er h1 h2
    unfold generate
    rw [h1]
    dsimp only
    rw [h2]

theorem claim_generate_combiner_witness :
    generate "a" (some "b") = Except.ok ("(?:" ++ "[aA]" ++ ")|(?:" ++ "[bB]" ++ ")") :=
  claim_generate_combiner.2.2.2.1 "a" "b" "[aA]" "[bB]" rfl rfl

/-- C7: a letter run starting with an accented letter whose
decomposition yields a different single unaccented base letter gets a
class listing base lowercase, base uppercase, original lowercase,
original uppercase, de-duplicated (shown exactly for `á`); the class
never contains duplicates; and accent stripping does not affect
run-length counting, which still case-folds the original characters
(`Áá` is one run of two, `áa` is two separate runs). -/
theorem claim_accent_widening :
    make_regex (String.mk [Char.ofNat 225]) =
      Except.ok (String.mk ['[', 'a', 'A', Char.ofNat 225, Char.ofNat 193, ']'])
    ∧ letterClass (Char.ofNat 225) = ['a', 'A', Char.ofNat 225, Char.ofNat 193]
    ∧ (∀ (c b : Char), strip_accents c = [b] → pyIsAlpha b = true →
        pyToLower b ≠ pyToLower c →
        letterClass c = addCaseForms (addCaseForms [] b) c)
    ∧ (∀ c : Char, (letterClass c).Nodup)
    ∧ make_regex (String.mk [Char.ofNat 193, Char.ofNat 225]) =
      Except.ok (String.mk ['[', 'a', 'A', Char.ofNat 225, Char.ofNat 193, ']'] ++ "\x7b2\x7d")
    ∧ make_regex (String.mk [Char.ofNat 225, 'a']) =
      Except.ok (String.mk ['[', 'a', 'A', Char.ofNat 225, Char.ofNat 193, ']'] ++ "[aA]") := by
  refine ⟨rfl, rfl, ?_, letterClass_nodup, rfl, rfl⟩
  intro c b hsb halpha hne
  unfold letterClass
  rw [hsb]
  dsimp only
  rw [if_pos (by simp [halpha, hne])]

theorem claim_accent_widening_witness :
    letterClass (Char.ofNat 225) =
      addCaseForms (addCaseForms [] (Char.ofNat 97)) (Char.ofNat 225) :=
  claim_accent_widening.2.2.1 (Char.ofNat 225) (Char.ofNat 97) (by decide) (by decide)
    (by decide)

/-- C8 (amended): any successful placeholder segment returns as next
cursor the index immediately after the closing brace found by the brace
scan, i.e. `j + 1` where `j` is the index of the `\x7d` — not `j + 2`. -/
theorem claim_placeholder_next_cursor :
    ∀ (s : List Char) (i : Nat) (p : String) (nxt : Nat),
      s.get? i = some lbrace →
      make_regex_segment s i s.length = some (Except.ok (p, nxt)) →
      ∃ j, j < s.length ∧ s.get? j = some rbrace ∧
        j = i + 1 + countWhileUpto (fun c => !(c == rbrace)) s (i + 1) s.length ∧
        nxt = j + 1 := by
  intro s i p nxt hch h
  unfold make_regex_segment at h
  rw [hch] at h
  dsimp only at h
  rw [if_neg (by decide), if_neg (by decide), if_pos (by decide)] at h
  set jb := i + 1 + countWhileUpto (fun c => !(c == rbrace)) s (i + 1) s.length with hjb
  by_cases hje : jb ≥ s.length
  · rw [if_pos hje] at h; simp at h
  · rw [if_neg hje] at h
    cases hgj : s.get? jb with
    | none => rw [hgj] at h; simp at h
    | some cj =>
      rw [hgj] at h
      dsimp only at h
      by_cases hcjr : (cj == rbrace) = true
      · rw [if_pos hcjr] at h
        cases hfi : List.findIdx? (fun c => c == '/') (pySlice s (i + 1) jb) with
        | none => rw [hfi] at h; simp at h
        | some sep =>
          rw [hfi] at h
          dsimp only at h
          cases hbl : build_regex (pyStrip ((pySlice s (i + 1) jb).take sep)) with
          | error er => rw [hbl] at h; simp at h
          | ok lr =>
            rw [hbl] at h
            dsimp only at h
            cases hbrr : build_regex (pyStrip ((pySlice s (i + 1) jb).drop (sep + 1))) with
            | error er => rw [hbrr] at h; simp at h
            | ok rr =>
              rw [hbrr] at h
              simp only [Option.some.injEq, Except.ok.injEq, Prod.mk.injEq] at h
              obtain ⟨hp, hn⟩ := h
              refine ⟨jb, by omega, ?_, hjb, by omega⟩
              rw [hgj]
              exact congrArg some (by simpa using hcjr)
      · rw [if_neg hcjr] at h; simp at h

theorem claim_placeholder_next_cursor_witness :
    ∃ j, j < "\x7ba/b\x7dx".data.length ∧ "\x7ba/b\x7dx".data.get? j = some rbrace ∧
      j = 0 + 1 + countWhileUpto (fun c => !(c == rbrace)) "\x7ba/b\x7dx".data (0 + 1)
        "\x7ba/b\x7dx".data.length ∧
      (5 : Nat) = j + 1 :=
  claim_placeholder_next_cursor "\x7ba/b\x7dx".data 0 "(?:[aA])|(?:[bB])" 5 rfl rfl

/-- C8 counterexample: for `"\x7b2/two\x7dx"` the closing brace sits at
index 6 and the segmenter resumes at 7 — the character right after the
brace — not at `6 + 2 = 8` as the claim states. -/
theorem claim_placeholder_next_cursor_cex :
    "\x7b2/two\x7dx".data.get? 6 = some rbrace ∧
    make_regex_segment "\x7b2/two\x7dx".data 0 "\x7b2/two\x7dx".data.length =
      some (Except.ok ("(?:2)|(?:[tT][wW][oO])", 7)) ∧
    (7 : Nat) ≠ 6 + 2 :=
  ⟨rfl, rfl, by decide⟩

/-- C9: every successful segmenter call strictly advances the cursor
and never passes the end; consequently the driver loop always yields a
result (its fuel never runs out from `s.length + 1`), and the driver is
exactly the loop that starts at 0, concatenates fragments and jumps to
each returned next cursor. -/
theorem claim_cursor_strictly_advances :
    (∀ (s : List Char) (i : Nat) (p : String) (j : Nat),
        make_regex_segment s i s.length = some (Except.ok (p, j)) →
        i < j ∧ j ≤ s.length)
    ∧ (∀ s : List Char, (build_go (s.length + 1) s 0).isSome = true)
    ∧ (∀ (s : List Char) (i : Nat), i < s.length →
        build_go (s.length + 1) s i =
          match make_regex_segment s i s.length with
          | none => none
          | some (Except.error er) => some (Except.error er)
          | some (Except.ok (p, j)) =>
            match build_go (s.length + 1) s j with
            | none => none
            | some (Except.error er) => some (Except.error er)
            | some (Except.ok rest) => some (Except.ok (p ++ rest))) :=
  ⟨make_regex_segment_advances, fun s => build_go_total _ s 0 (by omega), build_go_step⟩

theorem claim_cursor_strictly_advances_witness :
    (0 : Nat) < 1 ∧ (1 : Nat) ≤ "ab".data.length :=
  claim_cursor_strictly_advances.1 "ab".data 0 "[aA]" 1 rfl

/-- C10: a closing parenthesis reached by the segmenter never raises an
error: it is emitted as the escaped literal `\)` with the cursor
advanced by one, and since the literal-run extension stops at
parentheses a run of `)` characters yields one fragment per character
with no repetition suffix — unlike e.g. a run of `\x7d`, which
compresses. -/
theorem claim_rparen_literal :
    (∀ (s : List Char) (i e : Nat), s.get? i = some ')' →
      make_regex_segment s i e = some (Except.ok ("\\)", i + 1)))
    ∧ make_regex "))" = Except.ok "\\)\\)"
    ∧ make_regex "\x7d\x7d" = Except.ok "\\\x7d\x7b2\x7d" :=
  ⟨segment_rparen_eq, rfl, rfl⟩

theorem claim_rparen_literal_witness :
    make_regex_segment "a))".data 1 3 = some (Except.ok ("\\)", 2)) :=
  claim_rparen_literal.1 "a))".data 1 3 rfl

end Regexp
